import Mathlib

/-!
Verification of the nanoclaw Lark channel (src/channels/lark.ts).

Text is modelled as `List Char` (`Str`); JS string primitives
(`slice`, `lastIndexOf`, `replace` with a string pattern, `startsWith`)
are embedded as executable functions on `Str`.
-/

namespace Nanoclaw

abbrev Str := List Char

/-- Coerce a Lean string literal to the `List Char` model. -/
def str (s : String) : Str := s.data

def nl : Char := '\n'

/-- `true` iff `pat` occurs in `s` starting at index `k`
(the match must fit entirely inside `s`, as for JS `indexOf` family). -/
def occursAt (pat s : Str) (k : Nat) : Bool :=
  decide (pat <+: s.drop k)

/-- JS `s.lastIndexOf(pat, pos)`: the largest `k ≤ pos` such that `pat`
occurs in `s` at `k`; `none` when there is no such occurrence
(JS returns `-1`). Structural recursion downward on `pos`. -/
def lastIndexOfFrom (s pat : Str) : Nat → Option Nat
  | 0 => if occursAt pat s 0 then some 0 else none
  | n + 1 => if occursAt pat s (n + 1) then some (n + 1) else lastIndexOfFrom s pat n

/-- The source guards every boundary cut with `splitIdx > 0`; this wraps
`lastIndexOfFrom` and keeps only strictly positive indices. -/
def posIdx (s pat : Str) (pos : Nat) : Option Nat :=
  match lastIndexOfFrom s pat pos with
  | some i => if 0 < i then some i else none
  | none => none

/-- One iteration of the `while` loop body of `splitMarkdown`
(src/channels/lark.ts lines 169-187), for `remaining.length > maxLen`:
returns `(chunk pushed, separator consumed at the cut, new remaining)`.
Paragraph cut at the last `"\n\n"` with index in `(0, maxLen]`, else line
cut at the last `"\n"` with index in `(0, maxLen]`, else hard cut at
`maxLen`. -/
def cutOnce (maxLen : Nat) (remaining : Str) : Str × Str × Str :=
  match posIdx remaining [nl, nl] maxLen with
  | some i => (remaining.take i, [nl, nl], remaining.drop (i + 2))
  | none =>
    match posIdx remaining [nl] maxLen with
    | some i => (remaining.take i, [nl], remaining.drop (i + 1))
    | none => (remaining.take maxLen, [], remaining.drop maxLen)

/-- The `while (remaining.length > 0)` loop of `splitMarkdown`, with
explicit fuel (the loop strictly shortens `remaining` when `maxLen ≥ 1`,
so fuel `remaining.length` is always enough; proved below). -/
def splitGo (maxLen : Nat) : Nat → Str → List Str
  | 0, _ => []
  | fuel + 1, remaining =>
    if remaining.isEmpty then []
    else if remaining.length ≤ maxLen then [remaining]
    else
      (cutOnce maxLen remaining).1 ::
        splitGo maxLen fuel (cutOnce maxLen remaining).2.2

/-- `splitMarkdown(text, maxLen)` from src/channels/lark.ts lines 157-191. -/
def splitMarkdown (text : Str) (maxLen : Nat) : List Str :=
  if text.length ≤ maxLen then [text]
  else splitGo maxLen text.length text

/-- Instrumented variant of the split loop that also records the separator
consumed at each cut (`"\n\n"`, `"\n"`, or nothing for a hard cut). -/
def splitGoSep (maxLen : Nat) : Nat → Str → List (Str × Str)
  | 0, _ => []
  | fuel + 1, remaining =>
    if remaining.isEmpty then []
    else if remaining.length ≤ maxLen then [(remaining, [])]
    else
      ((cutOnce maxLen remaining).1, (cutOnce maxLen remaining).2.1) ::
        splitGoSep maxLen fuel (cutOnce maxLen remaining).2.2

/-- Instrumented `splitMarkdown`: chunks paired with consumed separators. -/
def splitWithSeps (text : Str) (maxLen : Nat) : List (Str × Str) :=
  if text.length ≤ maxLen then [(text, [])]
  else splitGoSep maxLen text.length text

/-- Rejoin chunks, reinserting the separator consumed at each cut. -/
def rejoinChunks (l : List (Str × Str)) : Str :=
  l.foldr (fun p acc => p.1 ++ p.2 ++ acc) []

/-- One iteration of the split loop viewed as a function on `remaining`
alone, absorbing once the loop exit condition holds. -/
def loopStep (maxLen : Nat) (r : Str) : Str :=
  if r.length ≤ maxLen then r else (cutOnce maxLen r).2.2

/-! ### Inbound event handling (`handleIncomingMessage`, lark.ts 340-428) -/

/-- Dedup window (lark.ts line 19): 10 minutes in milliseconds. -/
def DEDUP_TTL_MS : Nat := 10 * 60 * 1000

/-- JS truthiness of an optional string (`undefined` and `""` are falsy). -/
def otruthy : Option Str → Bool
  | none => false
  | some s => !s.isEmpty

/-- JS `a || b` on strings: `b` when `a` is falsy (empty), else `a`. -/
def jsOrElse (a b : Str) : Str := if a.isEmpty then b else a

/-- One entry of the Lark `message.mentions` array:
`{key, id?: {open_id?}, name?}`. -/
structure Mention where
  key : Str
  openId : Option Str
  name : Option Str
deriving DecidableEq

/-- The `data.message` object of an `im.message.receive_v1` event.
`content_text` stands for the result of `JSON.parse(message.content).text`:
`none` models an unparseable payload or a missing/undefined `text` field
(JSON parsing itself is outside the model). -/
structure LarkMessage where
  message_id : Option Str
  message_type : Str
  content_text : Option Str
  chat_id : Option Str
  chat_type : Str
  create_time : Str
  mentions : Option (List Mention)
deriving DecidableEq

/-- The event payload: `data.message` and `data.sender?.sender_id?.open_id`. -/
structure EventData where
  message : Option LarkMessage
  senderOpenId : Option Str
deriving DecidableEq

/-- Channel configuration: `ASSISTANT_NAME`, `TRIGGER_PATTERN.test` (the
configured trigger regex applied to the start of the text), and the
timestamp rendering `new Date(parseInt(create_time)).toISOString()`
(left abstract: no claim inspects its value). -/
structure LarkConfig where
  assistantName : Str
  triggerTest : Str → Bool
  formatTs : Str → Str

/-- Inbound-side channel state: `botOpenId` and the dedup map
`seenMessages : message_id → first-seen time`. -/
structure InState where
  botOpenId : Option Str
  seenMessages : List (Str × Nat)

/-- The normalized `Message` record passed to `onMessage`. -/
structure Message where
  id : Str
  chat_jid : Str
  sender : Str
  sender_name : Str
  content : Str
  timestamp : Str
  is_from_me : Bool
  is_bot_message : Bool
deriving DecidableEq

/-- The arguments of one `onChatMetadata` callback invocation. -/
structure ChatMeta where
  jid : Str
  timestamp : Str
  name : Option Str
  channelTag : Str
  isGroup : Bool
deriving DecidableEq

/-- Observable outcome of handling one inbound event: the new dedup map,
the `onChatMetadata` emission (if any) and the `onMessage` emission
(if any, paired with its jid argument). -/
structure HandleResult where
  seen : List (Str × Nat)
  metadata : Option ChatMeta
  message : Option (Str × Message)
deriving DecidableEq

/-- `Map.get`-style lookup in the dedup map. -/
def seenLookup : List (Str × Nat) → Str → Option Nat
  | [], _ => none
  | (k, v) :: rest, id => if k = id then some v else seenLookup rest id

/-- `cleanupDedup` (lark.ts 591-598): delete entries older than the TTL. -/
def cleanupDedup (now : Nat) (seen : List (Str × Nat)) : List (Str × Nat) :=
  seen.filter (fun p => decide (now - p.2 ≤ DEDUP_TTL_MS))

/-- Smallest index at which `pat` occurs in `s` (JS `indexOf`). -/
def firstIndexOf (s pat : Str) : Option Nat :=
  (List.range (s.length + 1)).find? (fun k => occursAt pat s k)

/-- JS `s.replace(pat, repl)` with a string pattern: replace the leftmost
occurrence only; `s` unchanged when `pat` does not occur. -/
def replaceFirst (s pat repl : Str) : Str :=
  match firstIndexOf s pat with
  | none => s
  | some i => s.take i ++ repl ++ s.drop (i + pat.length)

/-- The mention-replacement loop (lark.ts 403-408): for each mention entry
whose `id?.open_id` equals the bot's open id and whose `key` is truthy,
replace the key in the text with `@<ASSISTANT_NAME>`. -/
def applyMentions (assistantName botId : Str) (ms : List Mention) (c : Str) : Str :=
  ms.foldl
    (fun c m =>
      if m.openId = some botId ∧ ¬m.key.isEmpty then
        replaceFirst c m.key (str "@" ++ assistantName)
      else c)
    c

/-- Mention/trigger normalization (lark.ts 395-416). Skipped entirely for
bot-authored messages; otherwise runs the replacement loop (guarded by
`mentions && this.botOpenId`), then prepends `@<ASSISTANT_NAME> ` when the
content changed and does not already match the trigger pattern. -/
def normalizeContent (cfg : LarkConfig) (botOpenId : Option Str) (isBot : Bool)
    (mentions : Option (List Mention)) (textContent : Str) : Str :=
  if isBot then textContent
  else
    let content :=
      match mentions, botOpenId with
      | some ms, some b =>
        if ¬b.isEmpty then applyMentions cfg.assistantName b ms textContent
        else textContent
      | _, _ => textContent
    if content ≠ textContent ∧ ¬cfg.triggerTest content then
      str "@" ++ cfg.assistantName ++ str " " ++ content
    else content

/-- `if (messageId) this.seenMessages.set(messageId, Date.now())`
(lark.ts 348), reached only when the id is not already recorded. -/
def dedupInsert (st : InState) (now : Nat) (m : LarkMessage) : List (Str × Nat) :=
  match m.message_id with
  | some mid => if ¬mid.isEmpty then (mid, now) :: st.seenMessages else st.seenMessages
  | none => st.seenMessages

/-- The content checks of `handleIncomingMessage` after the dedup insert
(lark.ts 350-365): text-type check, content parse, empty-text and
missing-chat-id checks. When all pass, yields the event, message, parsed
text and chat id. -/
def contentGate (d : EventData) (m : LarkMessage) :
    Option (EventData × LarkMessage × Str × Str) :=
  if m.message_type ≠ str "text" then none
  else
    match m.content_text with
    | none => none
    | some t =>
      if t.isEmpty then none
      else
        match m.chat_id with
        | none => none
        | some cid =>
          if cid.isEmpty then none
          else some (d, m, t, cid)

/-- Stages of `handleIncomingMessage` before the registered-group gate
(lark.ts 340-372): missing message, dedup check and insert, then the
content checks. Returns the updated dedup map and, when all checks pass,
the data the rest of the handler needs. -/
def preprocess (st : InState) (now : Nat) (data : Option EventData) :
    List (Str × Nat) × Option (EventData × LarkMessage × Str × Str) :=
  match data with
  | none => (st.seenMessages, none)
  | some d =>
    match d.message with
    | none => (st.seenMessages, none)
    | some m =>
      if otruthy m.message_id ∧
          (seenLookup st.seenMessages (m.message_id.getD [])).isSome then
        (st.seenMessages, none)
      else (dedupInsert st now m, contentGate d m)

/-- `handleIncomingMessage` (lark.ts 340-428): after `preprocess`, build
the jid and timestamp, always emit the metadata event, gate full delivery
on a fresh `registeredGroups()` snapshot, detect self-authorship, and
normalize mentions into the delivered content. -/
def handleIncomingMessage (cfg : LarkConfig) (registeredGroups : Str → Bool)
    (st : InState) (now : Nat) (data : Option EventData) : HandleResult :=
  match preprocess st now data with
  | (seen, none) => ⟨seen, none, none⟩
  | (seen, some (d, m, t, cid)) =>
    let jid := str "lark:" ++ cid
    let ts := cfg.formatTs m.create_time
    let meta : ChatMeta := ⟨jid, ts, none, str "lark", decide (m.chat_type ≠ str "p2p")⟩
    if registeredGroups jid then
      let isBot : Bool :=
        match st.botOpenId with
        | some b => !b.isEmpty && (d.senderOpenId == some b)
        | none => false
      let senderName :=
        if isBot then cfg.assistantName
        else jsOrElse (d.senderOpenId.getD []) (str "unknown")
      let content := normalizeContent cfg st.botOpenId isBot m.mentions t
      let msg : Message :=
        ⟨jsOrElse (m.message_id.getD []) (jsOrElse m.create_time []),
          jid, d.senderOpenId.getD [], senderName, content, ts, isBot, isBot⟩
      ⟨seen, some meta, some (jid, msg)⟩
    else ⟨seen, some meta, none⟩

/-- The message id carried by an event, when its message object exists. -/
def eventMessageId (d : Option EventData) : Option Str :=
  match d with
  | some e =>
    match e.message with
    | some m => m.message_id
    | none => none
  | none => none

/-- A step of channel history between two events: either a run of the
periodic `cleanupDedup` sweep, or the handling of some other event. -/
inductive TraceStep where
  | sweep (now : Nat)
  | event (now : Nat) (groups : Str → Bool) (d : Option EventData)

/-- Effect of one trace step on the inbound state. -/
def runStep (cfg : LarkConfig) (st : InState) : TraceStep → InState
  | .sweep now => ⟨st.botOpenId, cleanupDedup now st.seenMessages⟩
  | .event now groups d =>
    ⟨st.botOpenId, (handleIncomingMessage cfg groups st now d).seen⟩

/-- Run a list of trace steps in order. -/
def runTrace (cfg : LarkConfig) (st : InState) (steps : List TraceStep) : InState :=
  steps.foldl (runStep cfg) st

/-- Bound on the sweep clock of a trace step. -/
def sweepTimeLe (bound : Nat) : TraceStep → Prop
  | .sweep now => now ≤ bound
  | .event _ _ _ => True

/-- Number of `onMessage` emissions of one handling result (0 or 1). -/
def msgCount (r : HandleResult) : Nat := if r.message.isSome then 1 else 0

/-! ### Outbound delivery (`sendMessage`, `_sendDirect`, queue/flush) -/

/-- Per-message payload limit (lark.ts line 16). -/
def MAX_TEXT_LENGTH : Nat := 4000

/-- The `opts.mentionUser` argument `{id, name}`. -/
structure MentionUser where
  id : Str
  name : Str
deriving DecidableEq

/-- Native Lark mention markup built by the source:
`<at user_id="ID">NAME</at>`. -/
def atTag (id nm : Str) : Str :=
  str "<at user_id=\x22" ++ id ++ str "\x22>" ++ nm ++ str "</at>"

/-- `jid.replace(/^lark:/, "")`. -/
def larkChatId (jid : Str) : Str :=
  if (str "lark:").isPrefixOf jid then jid.drop 5 else jid

/-- Which platform send primitive a delivered unit uses. -/
inductive SendApi where
  | reply (messageId : Str)
  | create (chatId : Str)
deriving DecidableEq

/-- One platform message call: primitive, `msg_type`, and the text handed
to the renderer (`post`) or sent directly (`text` fallback). -/
structure SendUnit where
  api : SendApi
  msgType : Str
  text : Str
deriving DecidableEq

/-- The chunk loop of `_sendDirect` (lark.ts 485-517): split, then the
first iteration (`i === 0`) prepends the mention markup and uses the reply
primitive when `replyToMessageId` is set; every later iteration sends the
bare chunk via `message.create`. All units are `post` messages. -/
def sendDirectUnits (jid text : Str) (replyTo : Option Str)
    (mention : Option MentionUser) : List SendUnit :=
  let chatId := larkChatId jid
  match splitMarkdown text MAX_TEXT_LENGTH with
  | [] => []
  | c :: cs =>
    let firstText :=
      match mention with
      | some mu => atTag mu.id mu.name ++ str " " ++ c
      | none => c
    let firstApi :=
      match replyTo with
      | some rid => SendApi.reply rid
      | none => SendApi.create chatId
    ⟨firstApi, str "post", firstText⟩ ::
      cs.map (fun c2 => ⟨SendApi.create chatId, str "post", c2⟩)

/-- One attempted platform call batch of `sendMessage` with its outcome. -/
inductive SendAttempt where
  | richPost (units : List SendUnit) (ok : Bool)
  | fallbackText (api : SendApi) (text : Str) (ok : Bool)
deriving DecidableEq

/-- Observable outcome of one `sendMessage` call: final queue, attempted
platform calls in order, and whether an error escaped to the caller. -/
structure SendOutcome where
  queue : List (Str × Str)
  attempts : List SendAttempt
  raised : Bool
deriving DecidableEq

/-- The plain-text fallback of `sendMessage` (lark.ts 445-467): mention
markup prepended when `opts.mentionUser` is set, reply primitive when
`opts.replyToMessageId` is set, else create. -/
def fallbackPayload (jid text : Str) (replyTo : Option Str)
    (mention : Option MentionUser) : SendApi × Str :=
  let fallbackText :=
    match mention with
    | some mu => atTag mu.id mu.name ++ str " " ++ text
    | none => text
  match replyTo with
  | some rid => (SendApi.reply rid, fallbackText)
  | none => (SendApi.create (larkChatId jid), fallbackText)

/-- `sendMessage` (lark.ts 430-477). The booleans `richOk` and
`fallbackOk` are the environment's behaviour: whether the rich post send
(`_sendDirect`) and the plain-text fallback complete without throwing.
Disconnected: enqueue `{jid, text}` and return. Connected: try the rich
send; on failure retry once as plain text; on failure of that too,
enqueue the original arguments. No branch raises. -/
def sendMessage (connected : Bool) (queue : List (Str × Str)) (jid text : Str)
    (replyTo : Option Str) (mention : Option MentionUser)
    (richOk fallbackOk : Bool) : SendOutcome :=
  if ¬connected then ⟨queue ++ [(jid, text)], [], false⟩
  else if richOk then
    ⟨queue, [.richPost (sendDirectUnits jid text replyTo mention) true], false⟩
  else
    let fb := fallbackPayload jid text replyTo mention
    if fallbackOk then
      ⟨queue,
        [.richPost (sendDirectUnits jid text replyTo mention) false,
          .fallbackText fb.1 fb.2 true],
        false⟩
    else
      ⟨queue ++ [(jid, text)],
        [.richPost (sendDirectUnits jid text replyTo mention) false,
          .fallbackText fb.1 fb.2 false],
        false⟩

/-- The drain loop of `flushOutgoingQueue` (lark.ts 608-611): shift items
one at a time, sending each through `_sendDirect` (no reply, no mention)
and awaiting it before the next; platform calls are emitted in order. -/
def flushLoop : List (Str × Str) → List SendUnit
  | [] => []
  | item :: rest => sendDirectUnits item.1 item.2 none none ++ flushLoop rest

/-- `flushOutgoingQueue` (lark.ts 600-615): no-op under the re-entrancy
guard or on an empty queue; otherwise drain FIFO to empty. -/
def flushOutgoingQueue (flushing : Bool) (queue : List (Str × Str)) :
    List SendUnit × List (Str × Str) :=
  if flushing ∨ queue = [] then ([], queue)
  else (flushLoop queue, [])

/-- Concrete configuration used by witnesses: assistant name
`AssistantName`, trigger pattern = text starts with `@AssistantName`,
timestamp rendering left as the raw `create_time`. -/
def cfgEx : LarkConfig :=
  ⟨str "AssistantName", fun c => (str "@AssistantName").isPrefixOf c, fun t => t⟩

theorem occursAt_reconstruct {pat s : Str} {k : Nat} (h : occursAt pat s k = true) :
    s.take k ++ pat ++ s.drop (k + pat.length) = s := by
  have hp : pat <+: s.drop k := of_decide_eq_true h
  obtain ⟨t, ht⟩ := hp
  have hdrop : s.drop (k + pat.length) = t := by
    rw [← List.drop_drop, ← ht, List.drop_left]
  rw [hdrop, List.append_assoc, ht, List.take_append_drop]

theorem occursAt_bound {pat s : Str} {k : Nat} (hpat : pat ≠ [])
    (h : occursAt pat s k = true) : k + pat.length ≤ s.length := by
  have hp : pat <+: s.drop k := of_decide_eq_true h
  have hlen : pat.length ≤ (s.drop k).length := hp.length_le
  have hne : s.drop k ≠ [] := by
    intro e
    rw [e] at hp
    exact hpat (List.prefix_nil.mp hp)
  have hk : k < s.length := by
    by_contra hk
    exact hne (List.drop_eq_nil_of_le (Nat.le_of_not_lt hk))
  rw [List.length_drop] at hlen
  omega

theorem lastIndexOfFrom_le {s pat : Str} {pos i : Nat}
    (h : lastIndexOfFrom s pat pos = some i) : i ≤ pos := by
  induction pos with
  | zero =>
    unfold lastIndexOfFrom at h
    split at h
    · injection h with h; omega
    · cases h
  | succ n ih =>
    unfold lastIndexOfFrom at h
    split at h
    · injection h with h; omega
    · exact Nat.le_trans (ih h) (Nat.le_succ n)

theorem lastIndexOfFrom_occurs {s pat : Str} {pos i : Nat}
    (h : lastIndexOfFrom s pat pos = some i) : occursAt pat s i = true := by
  induction pos with
  | zero =>
    unfold lastIndexOfFrom at h
    split at h
    case isTrue hc => injection h with h; subst h; exact hc
    case isFalse => cases h
  | succ n ih =>
    unfold lastIndexOfFrom at h
    split at h
    case isTrue hc => injection h with h; subst h; exact hc
    case isFalse => exact ih h

theorem lastIndexOfFrom_eq_none {s pat : Str}
    (h : ∀ k, occursAt pat s k = false) (pos : Nat) :
    lastIndexOfFrom s pat pos = none := by
  induction pos with
  | zero => simp [lastIndexOfFrom, h]
  | succ n ih => simp [lastIndexOfFrom, h, ih]

theorem posIdx_spec {s pat : Str} {pos i : Nat} (h : posIdx s pat pos = some i) :
    0 < i ∧ i ≤ pos ∧ occursAt pat s i = true := by
  unfold posIdx at h
  split at h
  · split at h
    · rename_i j he hj
      injection h with h
      subst h
      exact ⟨hj, lastIndexOfFrom_le he, lastIndexOfFrom_occurs he⟩
    · cases h
  · cases h

theorem posIdx_eq_none {s pat : Str} (h : ∀ k, occursAt pat s k = false)
    (pos : Nat) : posIdx s pat pos = none := by
  simp [posIdx, lastIndexOfFrom_eq_none h]

theorem posIdx_zero (s pat : Str) : posIdx s pat 0 = none := by
  unfold posIdx
  split
  · rename_i i he
    have := lastIndexOfFrom_le he
    simp [Nat.le_zero.mp this]
  · rfl

/-- Case analysis on the three cut branches of `cutOnce`. -/
theorem cutOnce_cases (maxLen : Nat) (r : Str) :
    (∃ i, 0 < i ∧ i ≤ maxLen ∧ occursAt [nl, nl] r i = true ∧
      cutOnce maxLen r = (r.take i, [nl, nl], r.drop (i + 2))) ∨
    (∃ i, 0 < i ∧ i ≤ maxLen ∧ occursAt [nl] r i = true ∧
      cutOnce maxLen r = (r.take i, [nl], r.drop (i + 1))) ∨
    cutOnce maxLen r = (r.take maxLen, [], r.drop maxLen) := by
  rcases h2 : posIdx r [nl, nl] maxLen with _ | i
  · rcases h1 : posIdx r [nl] maxLen with _ | i
    · right; right; simp [cutOnce, h1, h2]
    · right; left
      obtain ⟨hi, hle, hocc⟩ := posIdx_spec h1
      exact ⟨i, hi, hle, hocc, by simp [cutOnce, h1, h2]⟩
  · left
    obtain ⟨hi, hle, hocc⟩ := posIdx_spec h2
    exact ⟨i, hi, hle, hocc, by simp [cutOnce, h2]⟩

/-- A cut loses no characters: chunk ++ consumed separator ++ rest = input. -/
theorem cutOnce_reconstruct (maxLen : Nat) (r : Str) :
    (cutOnce maxLen r).1 ++ (cutOnce maxLen r).2.1 ++ (cutOnce maxLen r).2.2 = r := by
  rcases cutOnce_cases maxLen r with ⟨i, _, _, hocc, he⟩ | ⟨i, _, _, hocc, he⟩ | he
  · rw [he]
    simpa using occursAt_reconstruct hocc
  · rw [he]
    simpa using occursAt_reconstruct hocc
  · rw [he]
    simp

/-- Every chunk produced by a cut is within the length budget. -/
theorem cutOnce_chunk_le (maxLen : Nat) (r : Str) :
    (cutOnce maxLen r).1.length ≤ maxLen := by
  rcases cutOnce_cases maxLen r with ⟨i, _, hle, _, he⟩ | ⟨i, _, hle, _, he⟩ | he <;>
    rw [he] <;> simp <;> omega

/-- With a positive budget, a cut strictly shortens the remaining text. -/
theorem cutOnce_rest_lt {maxLen : Nat} {r : Str} (hL : 1 ≤ maxLen)
    (h : maxLen < r.length) : (cutOnce maxLen r).2.2.length < r.length := by
  rcases cutOnce_cases maxLen r with ⟨i, hi, _, _, he⟩ | ⟨i, hi, _, _, he⟩ | he <;>
    rw [he] <;> simp <;> omega

theorem splitGo_nil (maxLen fuel : Nat) : splitGo maxLen fuel [] = [] := by
  cases fuel <;> simp [splitGo]

theorem splitGo_small {maxLen fuel : Nat} {r : Str} (hr : r ≠ [])
    (hlen : r.length ≤ maxLen) (hf : 1 ≤ fuel) :
    splitGo maxLen fuel r = [r] := by
  cases fuel with
  | zero => omega
  | succ f => simp [splitGo, hr, hlen]

theorem splitGo_cut {maxLen fuel : Nat} {r : Str} (h : maxLen < r.length)
    (hf : 1 ≤ fuel) :
    splitGo maxLen fuel r =
      (cutOnce maxLen r).1 :: splitGo maxLen (fuel - 1) (cutOnce maxLen r).2.2 := by
  have hr : r ≠ [] := by
    intro e; rw [e] at h; simp at h
  cases fuel with
  | zero => omega
  | succ f => simp [splitGo, hr, Nat.not_le.mpr h]

theorem splitGo_length_le (maxLen : Nat) :
    ∀ fuel r, ∀ c ∈ splitGo maxLen fuel r, c.length ≤ maxLen := by
  intro fuel
  induction fuel with
  | zero => intro r c hc; simp [splitGo] at hc
  | succ f ih =>
    intro r c hc
    by_cases hr : r = []
    · rw [hr, splitGo_nil] at hc; simp at hc
    · by_cases hlen : r.length ≤ maxLen
      · rw [splitGo_small hr hlen (by omega)] at hc
        simp at hc; subst hc; exact hlen
      · rw [splitGo_cut (Nat.not_le.mp hlen) (by omega)] at hc
        rcases List.mem_cons.mp hc with hc | hc
        · subst hc; exact cutOnce_chunk_le maxLen r
        · exact ih _ c (by simpa using hc)

theorem splitGoSep_fst (maxLen : Nat) :
    ∀ fuel r, (splitGoSep maxLen fuel r).map Prod.fst = splitGo maxLen fuel r := by
  intro fuel
  induction fuel with
  | zero => intro r; simp [splitGo, splitGoSep]
  | succ f ih =>
    intro r
    by_cases hr : r.isEmpty
    · simp [splitGo, splitGoSep, hr]
    · by_cases hlen : r.length ≤ maxLen
      · simp [splitGo, splitGoSep, hr, hlen]
      · simp [splitGo, splitGoSep, hr, hlen, ih]

theorem splitGoSep_rejoin {maxLen : Nat} (hL : 1 ≤ maxLen) :
    ∀ fuel r, r.length ≤ fuel →
      rejoinChunks (splitGoSep maxLen fuel r) = r := by
  intro fuel
  induction fuel with
  | zero =>
    intro r hr
    have : r = [] := List.length_eq_zero.mp (Nat.le_zero.mp hr)
    simp [this, splitGoSep, rejoinChunks]
  | succ f ih =>
    intro r hr
    by_cases he : r = []
    · simp [he, splitGoSep, rejoinChunks]
    · by_cases hlen : r.length ≤ maxLen
      · simp [splitGoSep, List.isEmpty_iff, he, hlen, rejoinChunks]
      · have hcut : maxLen < r.length := Nat.not_le.mp hlen
        have hrest : (cutOnce maxLen r).2.2.length ≤ f := by
          have := cutOnce_rest_lt hL hcut
          omega
        simp only [splitGoSep, List.isEmpty_iff, he, if_false, hlen,
          rejoinChunks, List.foldr_cons]
        have := ih (cutOnce maxLen r).2.2 hrest
        rw [rejoinChunks] at this
        rw [this]
        exact cutOnce_reconstruct maxLen r

theorem splitGoSep_sep_mem (maxLen : Nat) :
    ∀ fuel r, ∀ p ∈ splitGoSep maxLen fuel r,
      p.2 = [nl, nl] ∨ p.2 = [nl] ∨ p.2 = [] := by
  intro fuel
  induction fuel with
  | zero => intro r p hp; simp [splitGoSep] at hp
  | succ f ih =>
    intro r p hp
    by_cases hr : r.isEmpty
    · simp [splitGoSep, hr] at hp
    · by_cases hlen : r.length ≤ maxLen
      · simp [splitGoSep, hr, hlen] at hp
        subst hp
        simp
      · simp only [splitGoSep, hr, Bool.false_eq_true, if_false, hlen,
          List.mem_cons] at hp
        rcases hp with hp | hp
        · rcases cutOnce_cases maxLen r with ⟨i, _, _, _, he⟩ | ⟨i, _, _, _, he⟩ | he <;>
            rw [he] at hp <;> rw [hp] <;> simp
        · exact ih _ p hp

theorem splitGo_fuel {maxLen : Nat} (hL : 1 ≤ maxLen) :
    ∀ fuel fuel' r, r.length ≤ fuel → r.length ≤ fuel' →
      splitGo maxLen fuel r = splitGo maxLen fuel' r := by
  intro fuel
  induction fuel with
  | zero =>
    intro fuel' r hr _
    have : r = [] := List.length_eq_zero.mp (Nat.le_zero.mp hr)
    simp [this, splitGo_nil]
  | succ f ih =>
    intro fuel' r hr hr'
    by_cases he : r = []
    · simp [he, splitGo_nil]
    · have hpos : 1 ≤ r.length := List.length_pos.mpr he
      by_cases hlen : r.length ≤ maxLen
      · rw [splitGo_small he hlen (by omega), splitGo_small he hlen (by omega)]
      · have hcut : maxLen < r.length := Nat.not_le.mp hlen
        rw [splitGo_cut hcut (by omega), splitGo_cut hcut (by omega)]
        have hrest := cutOnce_rest_lt hL hcut
        simp only [Nat.add_sub_cancel]
        rw [ih (fuel' - 1) _ (by omega) (by omega)]

theorem loopStep_reaches {maxLen : Nat} (hL : 1 ≤ maxLen) :
    ∀ n r, r.length ≤ n → ((loopStep maxLen)^[n] r).length ≤ maxLen := by
  intro n
  induction n with
  | zero =>
    intro r hr
    simp only [Function.iterate_zero, id]
    omega
  | succ m ih =>
    intro r hr
    by_cases hlen : r.length ≤ maxLen
    · have hfix : loopStep maxLen r = r := by simp [loopStep, hlen]
      rw [Function.iterate_fixed hfix]
      exact hlen
    · have hcut : maxLen < r.length := Nat.not_le.mp hlen
      rw [Function.iterate_succ_apply]
      have hstep : loopStep maxLen r = (cutOnce maxLen r).2.2 := by
        simp [loopStep, hlen]
      rw [hstep]
      have := cutOnce_rest_lt hL hcut
      exact ih _ (by omega)

theorem occursAt_cons_replicate {c a : Char} (h : c ≠ a) (p : Str) (n k : Nat) :
    occursAt (c :: p) (List.replicate n a) k = false := by
  apply decide_eq_false
  intro hp
  rw [List.drop_replicate] at hp
  rcases hn : n - k with _ | m
  · rw [hn] at hp; simp at hp
  · rw [hn, List.replicate_succ] at hp
    obtain ⟨t, ht⟩ := hp
    rw [List.cons_append] at ht
    exact h (List.cons.inj ht).1

theorem cutOnce_replicate {a : Char} (h : nl ≠ a) (maxLen n : Nat) :
    cutOnce maxLen (List.replicate n a) =
      (List.replicate (min maxLen n) a, [], List.replicate (n - maxLen) a) := by
  have h2 := posIdx_eq_none (fun k => occursAt_cons_replicate h [nl] n k) maxLen
  have h1 := posIdx_eq_none (fun k => occursAt_cons_replicate h [] n k) maxLen
  simp [cutOnce, h1, h2, List.take_replicate, List.drop_replicate]

theorem splitMarkdown_replicate_4500 :
    splitMarkdown (List.replicate 4500 'A') 4000 =
      [List.replicate 4000 'A', List.replicate 500 'A'] := by
  rw [splitMarkdown, if_neg (by simp only [List.length_replicate]; omega)]
  rw [splitGo_cut (by simp only [List.length_replicate]; omega)
    (by simp only [List.length_replicate]; omega)]
  rw [cutOnce_replicate (by decide) 4000 4500]
  norm_num
  rw [splitGo_small (by simp only [ne_eq, List.replicate_eq_nil_iff]; omega)
    (by simp only [List.length_replicate]; omega) (by omega)]

theorem splitMarkdown_replicate_4000 :
    splitMarkdown (List.replicate 4000 'B') 4000 = [List.replicate 4000 'B'] := by
  rw [splitMarkdown, if_pos (by simp only [List.length_replicate]; omega)]

theorem loopStep_zero_eq (r : Str) : loopStep 0 r = r := by
  unfold loopStep
  split
  · rfl
  · rcases posIdx_zero r [nl, nl] with h2
    rcases posIdx_zero r [nl] with h1
    simp [cutOnce, h1, h2]

/-- Claim C5: for every text `T` and `maxLen L ≥ 1`, if `len(T) ≤ L` then
`splitMarkdown T L = [T]`, otherwise every chunk has length `≤ L`; in
particular `splitMarkdown ('A'*4500) 4000 = ['A'*4000, 'A'*500]` and
`splitMarkdown ('B'*4000) 4000 = ['B'*4000]`. -/
theorem claim_C5 (T : Str) (L : Nat) (hL : 1 ≤ L) :
    (T.length ≤ L → splitMarkdown T L = [T]) ∧
    (∀ c ∈ splitMarkdown T L, c.length ≤ L) ∧
    splitMarkdown (List.replicate 4500 'A') 4000 =
      [List.replicate 4000 'A', List.replicate 500 'A'] ∧
    splitMarkdown (List.replicate 4000 'B') 4000 = [List.replicate 4000 'B'] := by
  refine ⟨fun h => by rw [splitMarkdown, if_pos h], ?_,
    splitMarkdown_replicate_4500, splitMarkdown_replicate_4000⟩
  intro c hc
  rw [splitMarkdown] at hc
  split at hc
  · rename_i h
    simp at hc
    subst hc
    exact h
  · exact splitGo_length_le L _ _ c hc

/-- Witness for claim C5 at `T = "hi"`, `L = 4000`. -/
theorem claim_C5_witness :
    1 ≤ 4000 ∧
    (((str "hi").length ≤ 4000 → splitMarkdown (str "hi") 4000 = [str "hi"]) ∧
      (∀ c ∈ splitMarkdown (str "hi") 4000, c.length ≤ 4000) ∧
      splitMarkdown (List.replicate 4500 'A') 4000 =
        [List.replicate 4000 'A', List.replicate 500 'A'] ∧
      splitMarkdown (List.replicate 4000 'B') 4000 = [List.replicate 4000 'B']) :=
  ⟨by decide, claim_C5 (str "hi") 4000 (by decide)⟩

/-- Claim C6: rejoining the chunks of `splitMarkdown T L` with the exact
separator consumed at each cut reconstructs `T`; the instrumented split
agrees chunk-wise with `splitMarkdown`, and each consumed separator is
`"\n\n"`, `"\n"`, or empty (hard cut). -/
theorem claim_C6 (T : Str) (L : Nat) (hL : 1 ≤ L) :
    rejoinChunks (splitWithSeps T L) = T ∧
    (splitWithSeps T L).map Prod.fst = splitMarkdown T L ∧
    (∀ p ∈ splitWithSeps T L, p.2 = [nl, nl] ∨ p.2 = [nl] ∨ p.2 = []) := by
  refine ⟨?_, ?_, ?_⟩
  · rw [splitWithSeps]
    split
    · simp [rejoinChunks]
    · exact splitGoSep_rejoin hL T.length T (le_refl _)
  · rw [splitWithSeps, splitMarkdown]
    split
    · simp
    · exact splitGoSep_fst L T.length T
  · intro p hp
    rw [splitWithSeps] at hp
    split at hp
    · simp at hp
      subst hp
      simp
    · exact splitGoSep_sep_mem L T.length T p hp

/-- Witness for claim C6 at `T = "ab\ncd"`, `L = 3`. -/
theorem claim_C6_witness :
    1 ≤ 3 ∧
    (rejoinChunks (splitWithSeps (str "ab\ncd") 3) = str "ab\ncd" ∧
      (splitWithSeps (str "ab\ncd") 3).map Prod.fst = splitMarkdown (str "ab\ncd") 3 ∧
      (∀ p ∈ splitWithSeps (str "ab\ncd") 3,
        p.2 = [nl, nl] ∨ p.2 = [nl] ∨ p.2 = [])) :=
  ⟨by decide, claim_C6 (str "ab\ncd") 3 (by decide)⟩

/-- Claim C10: with `maxLen ≥ 1` the split loop terminates (its result is
independent of any fuel at least `remaining.length`, because each cut
strictly shortens the remainder: a paragraph cut removes at least 3
characters, a line cut at least 2, a hard cut exactly `maxLen`); with
`maxLen = 0` and non-empty text the loop body leaves the remainder
unchanged forever and the exit condition never holds. -/
theorem claim_C10 :
    (∀ (L fuel fuel' : Nat) (r : Str), 1 ≤ L → r.length ≤ fuel → r.length ≤ fuel' →
      splitGo L fuel r = splitGo L fuel' r) ∧
    (∀ (L : Nat) (r : Str), 1 ≤ L → L < r.length →
      ((cutOnce L r).2.1 = [nl, nl] → (cutOnce L r).2.2.length + 3 ≤ r.length) ∧
      ((cutOnce L r).2.1 = [nl] → (cutOnce L r).2.2.length + 2 ≤ r.length) ∧
      ((cutOnce L r).2.1 = [] → (cutOnce L r).2.2.length + L = r.length)) ∧
    (∀ (L : Nat) (r : Str), 1 ≤ L → ((loopStep L)^[r.length] r).length ≤ L) ∧
    (∀ (r : Str) (n : Nat), r ≠ [] →
      (loopStep 0)^[n] r = r ∧ ((loopStep 0)^[n] r).length ≠ 0) := by
  refine ⟨fun L fuel fuel' r hL h h' => splitGo_fuel hL fuel fuel' r h h', ?_,
    fun L r hL => loopStep_reaches hL r.length r (le_refl _), ?_⟩
  · intro L r hL hlen
    rcases cutOnce_cases L r with ⟨i, hi, hle, hocc, he⟩ | ⟨i, hi, hle, hocc, he⟩ | he
    · have hb := occursAt_bound (by decide) hocc
      simp only [List.length_cons, List.length_nil] at hb
      refine ⟨fun _ => ?_, fun hs => ?_, fun hs => ?_⟩
      · rw [he]; simp; omega
      · rw [he] at hs; simp at hs
      · rw [he] at hs; simp at hs
    · have hb := occursAt_bound (by decide) hocc
      simp only [List.length_cons, List.length_nil] at hb
      refine ⟨fun hs => ?_, fun _ => ?_, fun hs => ?_⟩
      · rw [he] at hs; simp at hs
      · rw [he]; simp; omega
      · rw [he] at hs; simp at hs
    · refine ⟨fun hs => ?_, fun hs => ?_, fun _ => ?_⟩
      · rw [he] at hs; simp at hs
      · rw [he] at hs; simp at hs
      · rw [he]; simp; omega
  · intro r n hr
    rw [Function.iterate_fixed (loopStep_zero_eq r)]
    exact ⟨rfl, fun e => hr (List.length_eq_zero.mp e)⟩

/-- Witness for claim C10 at small concrete inputs. -/
theorem claim_C10_witness :
    (1 ≤ 1 ∧ (str "ab").length ≤ 2 ∧ (str "ab").length ≤ 3 ∧
      splitGo 1 2 (str "ab") = splitGo 1 3 (str "ab")) ∧
    (1 ≤ 1 ∧ 1 < (str "ab").length ∧
      ((cutOnce 1 (str "ab")).2.1 = [] →
        (cutOnce 1 (str "ab")).2.2.length + 1 = (str "ab").length)) ∧
    ((loopStep 1)^[(str "ab").length] (str "ab")).length ≤ 1 ∧
    (str "a" ≠ [] ∧ (loopStep 0)^[5] (str "a") = str "a") :=
  ⟨⟨by decide, by decide, by decide,
      claim_C10.1 1 2 3 (str "ab") (by decide) (by decide) (by decide)⟩,
    ⟨by decide, by decide,
      (claim_C10.2.1 1 (str "ab") (by decide) (by decide)).2.2⟩,
    claim_C10.2.2.1 1 (str "ab") (by decide),
    ⟨by decide, (claim_C10.2.2.2 (str "a") 5 (by decide)).1⟩⟩

theorem handle_seen_eq (cfg : LarkConfig) (g : Str → Bool) (st : InState)
    (now : Nat) (d : Option EventData) :
    (handleIncomingMessage cfg g st now d).seen = (preprocess st now d).1 := by
  unfold handleIncomingMessage
  rcases hp : preprocess st now d with ⟨seen, pay⟩
  rcases pay with _ | ⟨d', m', t', cid'⟩
  · rfl
  · dsimp only
    split <;> rfl

theorem preprocess_fst (st : InState) (now : Nat) (d : Option EventData) :
    (preprocess st now d).1 = st.seenMessages ∨
    ∃ mid, eventMessageId d = some mid ∧ ¬mid.isEmpty ∧
      seenLookup st.seenMessages mid = none ∧
      (preprocess st now d).1 = (mid, now) :: st.seenMessages := by
  rcases d with _ | e
  · left; rfl
  · rcases he : e.message with _ | m
    · left; simp [preprocess, he]
    · simp only [preprocess, he]
      split
      · left; rfl
      · rename_i hdup
        rcases hmid : m.message_id with _ | mid
        · left; simp [dedupInsert, hmid]
        · by_cases hne : mid.isEmpty
          · left; simp [dedupInsert, hmid, hne]
          · right
            refine ⟨mid, ?_, hne, ?_, ?_⟩
            · simp [eventMessageId, he, hmid]
            · rw [hmid] at hdup
              simp only [otruthy, hne, Option.getD_some] at hdup
              simp only [Bool.not_false, true_and] at hdup
              exact Option.not_isSome_iff_eq_none.mp (by simpa using hdup)
            · simp [dedupInsert, hmid, hne]

theorem seenLookup_cleanup {seen : List (Str × Nat)} {x : Str} {ts now : Nat}
    (h : seenLookup seen x = some ts) (hts : now - ts ≤ DEDUP_TTL_MS) :
    seenLookup (cleanupDedup now seen) x = some ts := by
  induction seen with
  | nil => cases h
  | cons p rest ih =>
    rcases p with ⟨k, v⟩
    unfold seenLookup at h
    by_cases hk : k = x
    · rw [if_pos hk] at h
      injection h with h
      subst h
      unfold cleanupDedup
      rw [List.filter_cons, if_pos (by simpa using hts)]
      unfold seenLookup
      rw [if_pos hk]
    · rw [if_neg hk] at h
      unfold cleanupDedup
      rw [List.filter_cons]
      split
      · unfold seenLookup
        rw [if_neg hk]
        exact ih h
      · exact ih h

theorem seenLookup_handle {cfg : LarkConfig} {g : Str → Bool} {st : InState}
    {now : Nat} {d : Option EventData} {x : Str} {ts : Nat}
    (h : seenLookup st.seenMessages x = some ts) :
    seenLookup (handleIncomingMessage cfg g st now d).seen x = some ts := by
  rw [handle_seen_eq]
  rcases preprocess_fst st now d with he | ⟨mid, _, _, hnone, he⟩
  · rw [he]; exact h
  · rw [he]
    unfold seenLookup
    by_cases hmx : mid = x
    · subst hmx
      rw [hnone] at h
      cases h
    · rw [if_neg hmx]
      exact h

theorem seenLookup_runTrace (cfg : LarkConfig) (steps : List TraceStep) :
    ∀ (st : InState) (x : Str) (ts : Nat),
      seenLookup st.seenMessages x = some ts →
      (∀ s ∈ steps, sweepTimeLe (ts + DEDUP_TTL_MS) s) →
      seenLookup (runTrace cfg st steps).seenMessages x = some ts := by
  induction steps with
  | nil => intro st x ts h _; exact h
  | cons s rest ih =>
    intro st x ts h hs
    have h1 : seenLookup (runStep cfg st s).seenMessages x = some ts := by
      cases s with
      | sweep now =>
        have hb : now ≤ ts + DEDUP_TTL_MS := hs _ (List.mem_cons_self _ _)
        exact seenLookup_cleanup h (by omega)
      | event now groups d => exact seenLookup_handle h
    have : runTrace cfg st (s :: rest) = runTrace cfg (runStep cfg st s) rest := rfl
    rw [this]
    exact ih _ x ts h1 (fun s' hs' => hs s' (List.mem_cons_of_mem _ hs'))

theorem handle_records (cfg : LarkConfig) (g : Str → Bool) (st : InState)
    (now : Nat) {d : Option EventData} {mid : Str}
    (h : eventMessageId d = some mid) (hne : ¬mid.isEmpty)
    (hfresh : seenLookup st.seenMessages mid = none) :
    seenLookup (handleIncomingMessage cfg g st now d).seen mid = some now := by
  rw [handle_seen_eq]
  rcases d with _ | e
  · cases h
  · rcases he : e.message with _ | m
    · simp only [eventMessageId, he] at h
      exact Option.noConfusion h
    · simp only [eventMessageId, he] at h
      simp only [preprocess, he]
      rw [if_neg (by
        rw [h]
        simp only [otruthy, hne, Option.getD_some, hfresh]
        simp)]
      simp only [dedupInsert, h, hne]
      unfold seenLookup
      simp

theorem handle_discards (cfg : LarkConfig) (g : Str → Bool) (st : InState)
    (now : Nat) {d : Option EventData} {mid : Str}
    (h : eventMessageId d = some mid) (hne : ¬mid.isEmpty)
    (hsome : (seenLookup st.seenMessages mid).isSome) :
    handleIncomingMessage cfg g st now d = ⟨st.seenMessages, none, none⟩ := by
  rcases d with _ | e
  · cases h
  · rcases he : e.message with _ | m
    · simp only [eventMessageId, he] at h
      exact Option.noConfusion h
    · simp only [eventMessageId, he] at h
      unfold handleIncomingMessage
      simp only [preprocess, he]
      rw [if_pos (by rw [h]; simp only [otruthy, hne, Option.getD_some]; simpa using hsome)]

/-- Claim C3: a message id recorded by a first event is never removed by
sweeps within the dedup TTL, so a second event carrying the same non-empty
id is discarded without further processing (no `onMessage` and no
metadata emission) and the pair yields at most one `onMessage` emission. -/
theorem claim_C3 (cfg : LarkConfig) (g1 g2 : Str → Bool) (st : InState)
    (t1 t2 : Nat) (d1 d2 : Option EventData) (mid : Str) (trace : List TraceStep)
    (h1 : eventMessageId d1 = some mid) (hne : ¬mid.isEmpty)
    (h2 : eventMessageId d2 = some mid)
    (hfresh : seenLookup st.seenMessages mid = none)
    (hsweeps : ∀ s ∈ trace, sweepTimeLe (t1 + DEDUP_TTL_MS) s) :
    (handleIncomingMessage cfg g2
        (runTrace cfg ⟨st.botOpenId, (handleIncomingMessage cfg g1 st t1 d1).seen⟩ trace)
        t2 d2).message = none ∧
    (handleIncomingMessage cfg g2
        (runTrace cfg ⟨st.botOpenId, (handleIncomingMessage cfg g1 st t1 d1).seen⟩ trace)
        t2 d2).metadata = none ∧
    msgCount (handleIncomingMessage cfg g1 st t1 d1) +
      msgCount (handleIncomingMessage cfg g2
        (runTrace cfg ⟨st.botOpenId, (handleIncomingMessage cfg g1 st t1 d1).seen⟩ trace)
        t2 d2) ≤ 1 := by
  have hrec : seenLookup (handleIncomingMessage cfg g1 st t1 d1).seen mid = some t1 :=
    handle_records cfg g1 st t1 h1 hne hfresh
  have hkept :
      seenLookup (runTrace cfg
        ⟨st.botOpenId, (handleIncomingMessage cfg g1 st t1 d1).seen⟩ trace).seenMessages
        mid = some t1 :=
    seenLookup_runTrace cfg trace _ mid t1 hrec hsweeps
  have hdisc := handle_discards cfg g2
    (runTrace cfg ⟨st.botOpenId, (handleIncomingMessage cfg g1 st t1 d1).seen⟩ trace)
    t2 h2 hne (by rw [hkept]; rfl)
  rw [hdisc]
  refine ⟨rfl, rfl, ?_⟩
  simp only [msgCount, Option.isSome_none, Bool.false_eq_true, if_false]
  split <;> omega

/-- Witness for claim C3: the same message id `m1` sent at times 0 and 5
with one sweep at time 1000 in between. -/
theorem claim_C3_witness :
    (eventMessageId (some ⟨some ⟨some (str "m1"), str "text", some (str "hi"),
        some (str "c1"), str "group", str "1", none⟩, some (str "u1")⟩) =
      some (str "m1")) ∧
    ¬(str "m1").isEmpty ∧
    seenLookup ([] : List (Str × Nat)) (str "m1") = none ∧
    (handleIncomingMessage cfgEx (fun _ => true)
        (runTrace cfgEx ⟨some (str "ou_bot"),
          (handleIncomingMessage cfgEx (fun _ => true) ⟨some (str "ou_bot"), []⟩ 0
            (some ⟨some ⟨some (str "m1"), str "text", some (str "hi"),
              some (str "c1"), str "group", str "1", none⟩, some (str "u1")⟩)).seen⟩
          [.sweep 1000])
        5
        (some ⟨some ⟨some (str "m1"), str "text", some (str "hi"),
          some (str "c1"), str "group", str "1", none⟩, some (str "u1")⟩)).message
      = none :=
  ⟨by decide, by decide, by decide,
    (claim_C3 cfgEx (fun _ => true) (fun _ => true) ⟨some (str "ou_bot"), []⟩ 0 5
      (some ⟨some ⟨some (str "m1"), str "text", some (str "hi"),
        some (str "c1"), str "group", str "1", none⟩, some (str "u1")⟩)
      (some ⟨some ⟨some (str "m1"), str "text", some (str "hi"),
        some (str "c1"), str "group", str "1", none⟩, some (str "u1")⟩)
      (str "m1") [.sweep 1000]
      (by decide) (by decide) (by decide) (by decide)
      (by
        intro s hs
        rcases List.mem_singleton.mp hs with rfl
        simp only [sweepTimeLe, DEDUP_TTL_MS]
        omega)).1⟩

theorem splitMarkdown_fits {T : Str} {L : Nat} (h : T.length ≤ L) :
    splitMarkdown T L = [T] := by
  rw [splitMarkdown, if_pos h]

theorem splitMarkdown_length_le (T : Str) (L : Nat) :
    ∀ c ∈ splitMarkdown T L, c.length ≤ L := by
  intro c hc
  rw [splitMarkdown] at hc
  split at hc
  · rename_i h
    simp at hc
    subst hc
    exact h
  · exact splitGo_length_le L _ _ c hc

/-- Claim C9: an `onMessage` emission for an event implies its jid is a
key of the registered-group snapshot fetched for that very event, and an
event that emits under one snapshot emits nothing when handled with a
snapshot not containing its jid — a registration change takes effect on
the next event. -/
theorem claim_C9 (cfg : LarkConfig) (g g1 g2 : Str → Bool) (st : InState)
    (now : Nat) (d : Option EventData) :
    (∀ jid msg, (handleIncomingMessage cfg g st now d).message = some (jid, msg) →
      g jid = true) ∧
    (∀ jid msg, (handleIncomingMessage cfg g2 st now d).message = some (jid, msg) →
      g1 jid = false → (handleIncomingMessage cfg g1 st now d).message = none) := by
  constructor
  · intro jid msg h
    unfold handleIncomingMessage at h
    rcases hp : preprocess st now d with ⟨seen, pay⟩
    rw [hp] at h
    rcases pay with _ | ⟨d', m', t', cid'⟩
    · exact Option.noConfusion h
    · simp only at h
      split at h
      · rename_i hg
        injection h with hpair
        injection hpair with h1 h2
        subst h1
        exact hg
      · exact Option.noConfusion h
  · intro jid msg h hg1
    unfold handleIncomingMessage at h ⊢
    rcases hp : preprocess st now d with ⟨seen, pay⟩
    rw [hp] at h
    rcases pay with _ | ⟨d', m', t', cid'⟩
    · exact Option.noConfusion h
    · simp only at h ⊢
      split at h
      · injection h with hpair
        injection hpair with h1 h2
        subst h1
        rw [if_neg (by simp [hg1])]
      · exact Option.noConfusion h

/-- Witness for claim C9: a registered text event emits, and the same
event with an empty registration snapshot does not. -/
theorem claim_C9_witness :
    ((handleIncomingMessage cfgEx (fun _ => true) ⟨some (str "ou_bot"), []⟩ 0
        (some ⟨some ⟨some (str "m1"), str "text", some (str "hi"), some (str "c1"),
          str "group", str "1", none⟩, some (str "u1")⟩)).message =
      some (str "lark:c1",
        ⟨str "m1", str "lark:c1", str "u1", str "u1", str "hi", str "1",
          false, false⟩)) ∧
    ((fun _ => false : Str → Bool) (str "lark:c1") = false) ∧
    (handleIncomingMessage cfgEx (fun _ => false) ⟨some (str "ou_bot"), []⟩ 0
        (some ⟨some ⟨some (str "m1"), str "text", some (str "hi"), some (str "c1"),
          str "group", str "1", none⟩, some (str "u1")⟩)).message = none :=
  ⟨by decide, rfl,
    (claim_C9 cfgEx (fun _ => true) (fun _ => false) (fun _ => true)
        ⟨some (str "ou_bot"), []⟩ 0
        (some ⟨some ⟨some (str "m1"), str "text", some (str "hi"), some (str "c1"),
          str "group", str "1", none⟩, some (str "u1")⟩)).2
      (str "lark:c1")
      ⟨str "m1", str "lark:c1", str "u1", str "u1", str "hi", str "1", false, false⟩
      (by decide) rfl⟩

/-- Counterexample to claim C1: a non-text (`image`) event and an
unparseable-content text event, both with a resolvable chat id, emit no
`ChatMetadataEvent` — the source checks the content type and parses the
content before it reads the chat id and emits metadata (lark.ts 351-375),
matching its test `skips non-text message types`. -/
theorem claim_C1_counterexample :
    (handleIncomingMessage cfgEx (fun _ => true) ⟨some (str "ou_bot"), []⟩ 0
      (some ⟨some ⟨some (str "m1"), str "image", some (str "hi"), some (str "c1"),
        str "group", str "1", none⟩, some (str "u1")⟩)).metadata = none ∧
    (handleIncomingMessage cfgEx (fun _ => true) ⟨some (str "ou_bot"), []⟩ 0
      (some ⟨some ⟨some (str "m2"), str "text", none, some (str "c1"),
        str "group", str "1", none⟩, some (str "u1")⟩)).metadata = none := by
  exact ⟨rfl, rfl⟩

/-- Claim C1 as amended: `handleIncomingMessage` emits the
`ChatMetadataEvent` only for events that pass the dedup check, have
`message_type = "text"`, a parseable non-empty text payload and a
non-empty chat id; for every such event it is emitted regardless of the
registered-group snapshot. -/
theorem claim_C1_amended (cfg : LarkConfig) (g : Str → Bool) (st : InState)
    (now : Nat) (d : EventData) (m : LarkMessage) (t cid : Str)
    (hd : d.message = some m)
    (hdedup : ¬(otruthy m.message_id ∧
      (seenLookup st.seenMessages (m.message_id.getD [])).isSome))
    (htype : m.message_type = str "text")
    (htext : m.content_text = some t) (ht : ¬t.isEmpty)
    (hcid : m.chat_id = some cid) (hc : ¬cid.isEmpty) :
    (handleIncomingMessage cfg g st now (some d)).metadata =
      some ⟨str "lark:" ++ cid, cfg.formatTs m.create_time, none, str "lark",
        decide (m.chat_type ≠ str "p2p")⟩ := by
  have hgate : contentGate d m = some (d, m, t, cid) := by
    unfold contentGate
    rw [if_neg (by simp [htype])]
    simp only [htext]
    rw [if_neg ht]
    simp only [hcid]
    rw [if_neg hc]
  have hp : preprocess st now (some d) = (dedupInsert st now m, contentGate d m) := by
    simp only [preprocess, hd]
    rw [if_neg hdedup]
  unfold handleIncomingMessage
  rw [hp, hgate]
  simp only
  split <;> rfl

/-- Witness for claim C1 (amended) at an unregistered chat: the metadata
event is still emitted. -/
theorem claim_C1_witness :
    ((⟨some ⟨some (str "m1"), str "text", some (str "hi"), some (str "c1"),
        str "group", str "1", none⟩, some (str "u1")⟩ : EventData).message =
      some ⟨some (str "m1"), str "text", some (str "hi"), some (str "c1"),
        str "group", str "1", none⟩) ∧
    (handleIncomingMessage cfgEx (fun _ => false) ⟨some (str "ou_bot"), []⟩ 0
        (some ⟨some ⟨some (str "m1"), str "text", some (str "hi"), some (str "c1"),
          str "group", str "1", none⟩, some (str "u1")⟩)).metadata =
      some ⟨str "lark:" ++ str "c1",
        cfgEx.formatTs (str "1"), none, str "lark",
        decide (str "group" ≠ str "p2p")⟩ :=
  ⟨rfl,
    claim_C1_amended cfgEx (fun _ => false) ⟨some (str "ou_bot"), []⟩ 0
      ⟨some ⟨some (str "m1"), str "text", some (str "hi"), some (str "c1"),
        str "group", str "1", none⟩, some (str "u1")⟩
      ⟨some (str "m1"), str "text", some (str "hi"), some (str "c1"),
        str "group", str "1", none⟩
      (str "hi") (str "c1") rfl (by decide) rfl rfl (by decide) rfl (by decide)⟩

theorem normalizeContent_nonself (cfg : LarkConfig) (b : Str) (ms : List Mention)
    (t : Str) :
    normalizeContent cfg (some b) false (some ms) t =
      (if (if ¬b.isEmpty then applyMentions cfg.assistantName b ms t else t) ≠ t ∧
          ¬cfg.triggerTest
            (if ¬b.isEmpty then applyMentions cfg.assistantName b ms t else t) then
        str "@" ++ cfg.assistantName ++ str " " ++
          (if ¬b.isEmpty then applyMentions cfg.assistantName b ms t else t)
      else (if ¬b.isEmpty then applyMentions cfg.assistantName b ms t else t)) := rfl

theorem applyMentions_skip {b : Str} {ms : List Mention}
    (h : ∀ m ∈ ms, m.openId ≠ some b) (a c : Str) :
    applyMentions a b ms c = c := by
  induction ms generalizing c with
  | nil => rfl
  | cons m rest ih =>
    unfold applyMentions
    rw [List.foldl_cons]
    rw [if_neg (by
      intro hcon
      exact h m (List.mem_cons_self _ _) hcon.1)]
    exact ih (fun m' hm' => h m' (List.mem_cons_of_mem _ hm')) c

/-- Claim C4: bot-authored messages pass through unchanged; with no
mention of the bot the text is unchanged and no trigger is prepended;
when replacement happened the trigger prefix is prepended exactly once
and only if the replaced text does not already match the trigger; the
spec's concrete examples hold (`@_user_1 hello` yields
`@AssistantName hello` with no duplicated prefix, other identities stay
untranslated). -/
theorem claim_C4 (cfg : LarkConfig) (b t : Str) (ms : List Mention)
    (bopt : Option Str) (mopt : Option (List Mention)) :
    (normalizeContent cfg bopt true mopt t = t) ∧
    ((∀ m ∈ ms, m.openId ≠ some b) →
      normalizeContent cfg (some b) false (some ms) t = t) ∧
    (¬b.isEmpty → cfg.triggerTest (applyMentions cfg.assistantName b ms t) →
      normalizeContent cfg (some b) false (some ms) t =
        applyMentions cfg.assistantName b ms t) ∧
    (¬b.isEmpty → applyMentions cfg.assistantName b ms t ≠ t →
      ¬cfg.triggerTest (applyMentions cfg.assistantName b ms t) →
      normalizeContent cfg (some b) false (some ms) t =
        str "@" ++ cfg.assistantName ++ str " " ++
          applyMentions cfg.assistantName b ms t) ∧
    (normalizeContent cfgEx (some (str "ou_bot")) false
        (some [⟨str "@_user_1", some (str "ou_bot"), none⟩]) (str "@_user_1 hello") =
      str "@AssistantName hello") ∧
    (normalizeContent cfgEx (some (str "ou_bot")) false
        (some [⟨str "@_user_1", some (str "ou_bot"), none⟩,
          ⟨str "@_user_2", some (str "ou_other"), none⟩])
        (str "Hey @_user_1 and @_user_2") =
      str "@AssistantName Hey @AssistantName and @_user_2") := by
  refine ⟨rfl, ?_, ?_, ?_, by decide, by decide⟩
  · intro h
    rw [normalizeContent_nonself]
    simp only [applyMentions_skip h, ite_self]
    rw [if_neg (by simp)]
  · intro hb htr
    rw [normalizeContent_nonself]
    simp only [if_pos hb]
    rw [if_neg (fun hcon => hcon.2 htr)]
  · intro hb hch htr
    rw [normalizeContent_nonself]
    simp only [if_pos hb]
    rw [if_pos ⟨hch, htr⟩]

/-- Witness for claim C4: the trigger-already-matches case at the spec's
example input, and the self-message passthrough. -/
theorem claim_C4_witness :
    (¬(str "ou_bot").isEmpty) ∧
    (cfgEx.triggerTest (applyMentions cfgEx.assistantName (str "ou_bot")
      [⟨str "@_user_1", some (str "ou_bot"), none⟩] (str "@_user_1 hello")) = true) ∧
    (normalizeContent cfgEx (some (str "ou_bot")) false
        (some [⟨str "@_user_1", some (str "ou_bot"), none⟩]) (str "@_user_1 hello") =
      applyMentions cfgEx.assistantName (str "ou_bot")
        [⟨str "@_user_1", some (str "ou_bot"), none⟩] (str "@_user_1 hello")) ∧
    (normalizeContent cfgEx (some (str "b")) true none (str "hi") = str "hi") :=
  ⟨by decide, by decide,
    (claim_C4 cfgEx (str "ou_bot") (str "@_user_1 hello")
        [⟨str "@_user_1", some (str "ou_bot"), none⟩] (some (str "b")) none).2.2.1
      (by decide) (by decide),
    (claim_C4 cfgEx (str "ou_bot") (str "hi") [] (some (str "b")) none).1⟩

/-- Counterexample to claim C2: `_sendDirect` prepends the mention markup
to the first chunk after `splitMarkdown` has run, so the markup does not
count toward the chunk's budget: for a 4000-character text with a mention
the single delivered unit's text has length 4023 > 4000 — matching the
source test `only prepends @mention to first chunk of split messages`. -/
theorem claim_C2_counterexample :
    ((sendDirectUnits (str "lark:c") (List.replicate 4000 'A') none
        (some ⟨str "u", str "N"⟩)).map (fun u => u.text.length)) = [4023] ∧
    4000 < 4023 := by
  have hsplit : splitMarkdown (List.replicate 4000 'A') MAX_TEXT_LENGTH =
      [List.replicate 4000 'A'] :=
    splitMarkdown_fits (by simp only [List.length_replicate, MAX_TEXT_LENGTH]; omega)
  refine ⟨?_, by omega⟩
  unfold sendDirectUnits
  rw [hsplit]
  simp only [List.map_cons, List.map_nil, List.length_append, List.length_replicate, atTag]
  norm_num [str]

/-- Claim C2 as amended: the mention markup is prepended to the first
chunk only after splitting. Each chunk of `splitMarkdown` is within the
4000 budget — so every unit after the first is — but the first delivered
unit's text is `<at ...> ` ++ first chunk and exceeds the chunk's length
by the markup length plus one. -/
theorem claim_C2_amended (jid text : Str) (replyTo : Option Str) (mu : MentionUser) :
    ((sendDirectUnits jid text replyTo (some mu)).map (fun u => u.text) =
      (match splitMarkdown text MAX_TEXT_LENGTH with
        | [] => []
        | c :: cs => (atTag mu.id mu.name ++ str " " ++ c) :: cs)) ∧
    (∀ c ∈ splitMarkdown text MAX_TEXT_LENGTH, c.length ≤ MAX_TEXT_LENGTH) ∧
    (∀ u ∈ (sendDirectUnits jid text replyTo (some mu)).tail,
      u.text.length ≤ MAX_TEXT_LENGTH) ∧
    (∀ u c cs, splitMarkdown text MAX_TEXT_LENGTH = c :: cs →
      (sendDirectUnits jid text replyTo (some mu)).head? = some u →
      u.text.length = (atTag mu.id mu.name).length + 1 + c.length) := by
  refine ⟨?_, splitMarkdown_length_le text MAX_TEXT_LENGTH, ?_, ?_⟩
  · unfold sendDirectUnits
    rcases hs : splitMarkdown text MAX_TEXT_LENGTH with _ | ⟨c, cs⟩
    · rfl
    · simp only [List.map_cons, List.map_map]
      clear hs
      congr 1
      induction cs with
      | nil => rfl
      | cons a as ih => exact congrArg (List.cons _) ih
  · intro u hu
    unfold sendDirectUnits at hu
    rcases hs : splitMarkdown text MAX_TEXT_LENGTH with _ | ⟨c, cs⟩ <;> rw [hs] at hu
    · simp at hu
    · simp only [List.tail_cons] at hu
      obtain ⟨c2, hc2, hu⟩ := List.mem_map.mp hu
      rw [← hu]
      exact splitMarkdown_length_le text MAX_TEXT_LENGTH c2
        (hs ▸ List.mem_cons_of_mem _ hc2)
  · intro u c cs hs hu
    unfold sendDirectUnits at hu
    rw [hs] at hu
    simp only [List.head?_cons] at hu
    injection hu with hu
    rw [← hu]
    simp only [List.length_append]
    have : (str " ").length = 1 := by decide
    omega

/-- Witness for claim C2 (amended) at a short concrete text. -/
theorem claim_C2_witness :
    (splitMarkdown (str "ab" ++ [nl] ++ str "cd") MAX_TEXT_LENGTH =
      [str "ab" ++ [nl] ++ str "cd"]) ∧
    (∀ u c cs,
      splitMarkdown (str "ab" ++ [nl] ++ str "cd") MAX_TEXT_LENGTH = c :: cs →
      (sendDirectUnits (str "lark:c") (str "ab" ++ [nl] ++ str "cd") none
        (some ⟨str "u", str "N"⟩)).head? = some u →
      u.text.length = (atTag (str "u") (str "N")).length + 1 + c.length) :=
  ⟨by decide,
    (claim_C2_amended (str "lark:c") (str "ab" ++ [nl] ++ str "cd") none
      ⟨str "u", str "N"⟩).2.2.2⟩

theorem flushLoop_eq_flatMap (queue : List (Str × Str)) :
    flushLoop queue =
      queue.flatMap (fun it => sendDirectUnits it.1 it.2 none none) := by
  induction queue with
  | nil => rfl
  | cons item rest ih => simp [flushLoop, ih]

/-- Claim C7: `sendMessage` on a disconnected channel performs no platform
call, appends `{jid, text}` to the queue and raises nothing; the
connect-time flush drains the whole queue through the direct-send path in
FIFO order. -/
theorem claim_C7 (queue : List (Str × Str)) (jid text : Str)
    (replyTo : Option Str) (mention : Option MentionUser) (richOk fallbackOk : Bool) :
    (sendMessage false queue jid text replyTo mention richOk fallbackOk).attempts = [] ∧
    (sendMessage false queue jid text replyTo mention richOk fallbackOk).queue =
      queue ++ [(jid, text)] ∧
    (sendMessage false queue jid text replyTo mention richOk fallbackOk).raised = false ∧
    (flushOutgoingQueue false queue).1 =
      queue.flatMap (fun it => sendDirectUnits it.1 it.2 none none) ∧
    (flushOutgoingQueue false queue).2 = [] := by
  refine ⟨rfl, rfl, rfl, ?_, ?_⟩
  · unfold flushOutgoingQueue
    split
    · rename_i h
      rcases h with h | h
      · exact absurd h (by simp)
      · rw [h]; rfl
    · exact flushLoop_eq_flatMap queue
  · unfold flushOutgoingQueue
    split
    · rename_i h
      rcases h with h | h
      · exact absurd h (by simp)
      · exact h
    · rfl

/-- Claim C8: on connected send with the rich post failing, exactly one
plain-text fallback is attempted with the same (possibly
mention-prefixed) text, via the reply primitive when `replyToMessageId`
is set and create otherwise; if the fallback fails too, the original
`{jid, text}` is enqueued; no combination of outcomes raises. -/
theorem claim_C8 (queue : List (Str × Str)) (jid text : Str)
    (replyTo : Option Str) (mention : Option MentionUser) (fallbackOk : Bool) :
    (sendMessage true queue jid text replyTo mention false fallbackOk).attempts =
      [.richPost (sendDirectUnits jid text replyTo mention) false,
        .fallbackText
          (match replyTo with
            | some rid => SendApi.reply rid
            | none => SendApi.create (larkChatId jid))
          (match mention with
            | some mu => atTag mu.id mu.name ++ str " " ++ text
            | none => text)
          fallbackOk] ∧
    (fallbackOk = true →
      (sendMessage true queue jid text replyTo mention false fallbackOk).queue = queue) ∧
    (fallbackOk = false →
      (sendMessage true queue jid text replyTo mention false fallbackOk).queue =
        queue ++ [(jid, text)]) ∧
    (∀ richOk fbOk : Bool,
      (sendMessage true queue jid text replyTo mention richOk fbOk).raised = false) := by
  refine ⟨?_, ?_, ?_, ?_⟩
  · cases fallbackOk <;> cases replyTo <;> cases mention <;>
      simp [sendMessage, fallbackPayload]
  · intro h; subst h; simp [sendMessage]
  · intro h; subst h; simp [sendMessage]
  · intro richOk fbOk
    cases richOk <;> cases fbOk <;> simp [sendMessage]

/-- Witness for claim C8 at a concrete failed-fallback send. -/
theorem claim_C8_witness :
    ((false : Bool) = false) ∧
    (sendMessage true [] (str "lark:c") (str "hi") none none false false).queue =
      [] ++ [(str "lark:c", str "hi")] :=
  ⟨rfl,
    (claim_C8 [] (str "lark:c") (str "hi") none none false).2.2.1 rfl⟩

end Nanoclaw
